import Mathlib

/-!
Verification of `fix_timelapse.py`, the Snapmaker U1 timelapse recovery tool.

The input file is modelled as a `List Nat` of byte values. `recover_file`'s
behaviour is embedded as pure functions:

* `beVal` models `struct.unpack` of a big-endian unsigned integer from a run
  of bytes (`">I"` on 4 bytes, `">Q"` on 8 bytes).
* `extractGo` / `extractLoop` model the inner NAL-extraction `while` loop
  (lines 93-119 of the source).  The `fault : Option Nat` argument injects an
  `IOError` before the k-th length read, modelling a storage read failure
  during extraction; `fault = none` is a fault-free run.  The returned `Bool`
  records whether such an exception was raised (and caught at line 124).
* `scanStep` / `scanBoxes` model one iteration / the whole of the outer
  atom-scanning `while` loop (lines 62-139).  `scanBoxes` is fuel-indexed
  because the source loop does not terminate on all inputs.
* `recoverRun` models the orchestration of `recover_file` (temp sink, scan,
  extract, mux, cleanup); the external ffmpeg collaborator's exit status is
  the parameter `muxOk`.
-/

/-- Big-endian value of a run of bytes, as computed by `struct.unpack(">I")`
on 4 bytes and `struct.unpack(">Q")` on 8 bytes. -/
def beVal (bs : List Nat) : Nat :=
  bs.foldl (fun acc b => acc * 256 + b) 0

/-- The 4 big-endian base-256 digits of `n < 2^32`: the bytes that decode to
`n` under `struct.unpack(">I")`. Used to describe well-formed inputs. -/
def be32enc (n : Nat) : List Nat :=
  [n / 16777216 % 256, n / 65536 % 256, n / 256 % 256, n % 256]

/-- Models `f.read(n)` at cursor position `pos` of an immutable file. -/
def readAt (file : List Nat) (pos n : Nat) : List Nat :=
  (file.drop pos).take n

/-- Models `bytes.decode("ascii", errors="ignore")`: bytes ≥ 128 are dropped. -/
def asciiIgnore (bs : List Nat) : List Nat :=
  bs.filter (fun b => b < 128)

/-- The byte values of the ASCII string `"mdat"`. -/
def mdatBytes : List Nat := [109, 100, 97, 116]

/-- The `START_CODE` constant of the source: bytes 00 00 00 01. -/
def START_CODE : List Nat := [0, 0, 0, 1]

/-- The `SPS` constant of the source (30 bytes). -/
def SPS : List Nat :=
  [0x67, 0x64, 0x00, 0x28, 0xac, 0xd9, 0x40, 0x78, 0x02, 0x27, 0xe5, 0xc0,
   0x5a, 0x81, 0x01, 0x02, 0xa0, 0x00, 0x00, 0x03, 0x00, 0x20, 0x00, 0x00,
   0x06, 0x01, 0xe3, 0x06, 0x32, 0xc0]

/-- The `PPS` constant of the source (6 bytes). -/
def PPS : List Nat := [0x68, 0xea, 0xe3, 0xcb, 0x22, 0xc0]

/-- The bytes written to the temp sink before scanning starts
(lines 56-59): start code, SPS, start code, PPS. -/
def fixedHeader : List Nat := START_CODE ++ SPS ++ START_CODE ++ PPS

/-- Content of the intermediate elementary stream when the extraction loop
recovered `units`: the fixed header followed by each unit prefixed with the
start code (lines 117-119). -/
def streamOf (units : List (List Nat)) : List Nat :=
  fixedHeader ++ (units.map (fun u => START_CODE ++ u)).flatten

/-- Fuel-indexed embedding of the NAL extraction loop (source lines 93-119).
`rest` is the remaining file content from the read cursor onward.  One unit
of fuel per iteration; since every iteration consumes at least 5 bytes,
`fuel = rest.length` always suffices (see `extractGo_fuel_irrelevant`).
`fault = some k` raises `IOError` at the k-th length read (0-based); the
second component records whether that exception was raised (it is caught by
the `except` clause at line 124, so the loop just ends). -/
def extractGo (fuel : Nat) (fault : Option Nat) (rest : List Nat) :
    List (List Nat) × Bool :=
  if fault = some 0 then ([], true)
  else
    match fuel with
    | 0 => ([], false)
    | fuel' + 1 =>
      if rest.length < 4 then ([], false)
      else if 20000000 < beVal (rest.take 4) ∨ beVal (rest.take 4) = 0 then
        ([], false)
      else if ((rest.drop 4).take (beVal (rest.take 4))).length <
          beVal (rest.take 4) then ([], false)
      else
        ((rest.drop 4).take (beVal (rest.take 4)) ::
            (extractGo fuel' (Option.map (fun k => k - 1) fault)
              (rest.drop (4 + beVal (rest.take 4)))).fst,
          (extractGo fuel' (Option.map (fun k => k - 1) fault)
            (rest.drop (4 + beVal (rest.take 4)))).snd)

/-- The NAL extraction loop on the remaining bytes `rest`: `extractGo` with
enough fuel. -/
def extractLoop (fault : Option Nat) (rest : List Nat) :
    List (List Nat) × Bool :=
  extractGo rest.length fault rest

/-- Result of one iteration of the atom-scanning loop at cursor `p`. -/
inductive ScanStep where
  /-- A non-`mdat` atom was skipped; the cursor is now at `next`. -/
  | advance (next : Nat)
  /-- The `mdat` atom was found; NAL data starts at `payloadStart`. -/
  | found (payloadStart : Nat)
  /-- Loop exits without finding `mdat` (short header read, or `size == 0`
  on a non-`mdat` atom). -/
  | notFound
  /-- Here `struct.unpack(">Q")` on a short read raises `struct.error`,
  which no enclosing handler catches. -/
  | structErr
  deriving DecidableEq, Repr

/-- One iteration of the atom-scanning loop (source lines 62-139) with the
read cursor at `p`. -/
def scanStep (file : List Nat) (p : Nat) : ScanStep :=
  if (readAt file p 8).length < 8 then .notFound
  else
    if asciiIgnore ((readAt file p 8).drop 4) = mdatBytes then
      if beVal ((readAt file p 8).take 4) = 1 then
        if (readAt file (p + 8) 8).length < 8 then .structErr
        else .found (p + 16)
      else .found (p + 8)
    else
      if beVal ((readAt file p 8).take 4) = 1 then
        if (readAt file (p + 8) 8).length < 8 then .structErr
        else .advance (p + beVal (readAt file (p + 8) 8))
      else if beVal ((readAt file p 8).take 4) = 0 then .notFound
      else .advance (p + beVal ((readAt file p 8).take 4))

/-- Outcome of the whole atom-scanning loop. -/
inductive ScanOutcome where
  /-- The `mdat` atom was found; NAL data starts at `payloadStart`. -/
  | found (payloadStart : Nat)
  /-- Loop exited without finding `mdat`. -/
  | notFound
  /-- Uncaught `struct.error`. -/
  | structErr
  /-- The fuel bound was reached while the loop was still running. -/
  | outOfFuel
  deriving DecidableEq, Repr

/-- The atom-scanning loop from cursor `p`, spending one unit of fuel per
skipped atom.  The source loop has no such bound; `outOfFuel` for every
fuel value means the source loop runs forever. -/
def scanBoxes (file : List Nat) (fuel : Nat) (p : Nat) : ScanOutcome :=
  match scanStep file p with
  | .advance q =>
    match fuel with
    | 0 => .outOfFuel
    | fuel' + 1 => scanBoxes file fuel' q
  | .found s => .found s
  | .notFound => .notFound
  | .structErr => .structErr

/-- Observable outcome of one `recover_file` run. -/
structure RunOutcome where
  /-- The Python return value; `none` when an exception propagates out of
  `recover_file` (uncaught `struct.error`). -/
  retVal : Option Bool
  /-- Whether the external ffmpeg mux step was invoked. -/
  muxAttempted : Bool
  /-- Content of the intermediate elementary stream at the moment the temp
  sink is closed. -/
  stream : List Nat
  /-- Whether the temporary sink is still on disk after the run; the source
  removes it on every exit path (lines 143-144 and 179-180). -/
  tempRemains : Bool
  deriving DecidableEq, Repr

/-- The orchestration of `recover_file`: scan for `mdat`, extract NALs,
hand the stream to ffmpeg, clean up.  `fuel` bounds the scan loop (`none`
is returned if it is exhausted, i.e. the source loop is still running);
`fault` injects an `IOError` into the extraction loop; `muxOk` is the
external collaborator's success flag. -/
def recoverRun (file : List Nat) (fuel : Nat) (fault : Option Nat)
    (muxOk : Bool) : Option RunOutcome :=
  match scanBoxes file fuel 0 with
  | .outOfFuel => none
  | .found s =>
    some { retVal := some muxOk, muxAttempted := true,
           stream := streamOf (extractLoop fault (file.drop s)).fst,
           tempRemains := false }
  | .notFound =>
    some { retVal := some false, muxAttempted := false,
           stream := fixedHeader, tempRemains := false }
  | .structErr =>
    some { retVal := none, muxAttempted := false,
           stream := fixedHeader, tempRemains := false }

/-- A length-prefixed record list as stored inside `mdat`: each unit is
serialized as its 4-byte big-endian length followed by its payload. -/
def encodeRecords : List (List Nat) → List Nat
  | [] => []
  | u :: us => be32enc u.length ++ u ++ encodeRecords us

/-- A unit the extraction loop accepts: nonempty and at most the 20 MB
plausibility ceiling. -/
def ValidUnit (u : List Nat) : Prop :=
  1 ≤ u.length ∧ u.length ≤ 20000000

instance : DecidablePred ValidUnit := fun u => by
  unfold ValidUnit; infer_instance

/-- Index of the last occurrence of `c` in a character list (`str.rfind` in
`os.path.splitext`), `none` if absent. -/
def lastIdxOf (c : Char) : List Char → Option Nat
  | [] => none
  | x :: xs =>
    match lastIdxOf c xs with
    | some i => some (i + 1)
    | none => if x = c then some 0 else none

/-- Modelled from the Python standard library: `posixpath.splitext`, called
by `main` (line 196).  Splits `p` at the last dot that comes after the last
path separator, unless every character between the separator and that dot is
itself a dot (leading dots of a basename do not start an extension). -/
def splitext (p : List Char) : List Char × List Char :=
  match lastIdxOf '.' p with
  | none => (p, [])
  | some d =>
    let fstart : Nat :=
      match lastIdxOf '/' p with
      | none => 0
      | some si => si + 1
    if fstart ≤ d ∧ ((p.drop fstart).take (d - fstart)).any (fun c => c ≠ '.')
    then (p.take d, p.drop d)
    else (p, [])

/-- The fixed suffix `"_fixed.mp4"` appended by `main` (line 197). -/
def fixedSuffix : List Char := ['_', 'f', 'i', 'x', 'e', 'd', '.', 'm', 'p', '4']

/-- The output path chosen by `main` (lines 186-197) from the argument
vector (`argv.head` is the program name): `none` when no input path is given
(the process exits), the explicit second argument when present, otherwise
the input path without its extension followed by `fixedSuffix`. -/
def mainOutPath (argv : List (List Char)) : Option (List Char) :=
  if argv.length < 2 then none
  else if 3 ≤ argv.length then some (argv.getD 2 [])
  else some ((splitext (argv.getD 1 [])).fst ++ fixedSuffix)

/-- A container whose first atom is an `mdat` of declared size 16 holding
two valid records (payloads `[65]` and `[66, 67]`). -/
def wTwoRecFile : List Nat :=
  [0, 0, 0, 16, 109, 100, 97, 116] ++
  [0, 0, 0, 1, 65] ++ [0, 0, 0, 2, 66, 67]

/-- An `mdat` container with one valid record followed by a zero length
field. -/
def wZeroLenFile : List Nat :=
  [0, 0, 0, 16, 109, 100, 97, 116] ++ [0, 0, 0, 1, 65] ++ [0, 0, 0, 0]

/-- An `mdat` container with one valid record followed by a record whose
length field (5) declares more bytes than the 2 that remain. -/
def wTruncFile : List Nat :=
  [0, 0, 0, 16, 109, 100, 97, 116] ++ [0, 0, 0, 1, 65] ++ [0, 0, 0, 5, 66, 67]

/-- An `mdat` container with a single valid record (payload `[65]`). -/
def wOneRecFile : List Nat :=
  [0, 0, 0, 16, 109, 100, 97, 116] ++ [0, 0, 0, 1, 65]

/-- A 16-byte normal-form `free` box (size field 16). -/
def wFreeFile : List Nat :=
  [0, 0, 0, 16, 102, 114, 101, 101] ++ [9, 9, 9, 9, 9, 9, 9, 9]

/-- An extended-form `free` box: size field 1, 64-bit extended size 24,
then 8 payload bytes. -/
def wExtFile : List Nat :=
  [0, 0, 0, 1, 102, 114, 101, 101] ++
  [0, 0, 0, 0, 0, 0, 0, 24] ++ [7, 7, 7, 7, 7, 7, 7, 7]

/-- A non-`mdat` box with size field 1 whose 64-bit extended size is 0: the
scanner seeks back to the box's own start and loops forever. -/
def wStallFile : List Nat :=
  [0, 0, 0, 1, 102, 114, 101, 101] ++ [0, 0, 0, 0, 0, 0, 0, 0]

/-- A 9-byte `mdat`-free input: one non-`mdat` box (`abcd`) with size field
1 but only one byte where its 8-byte extended size should be.  On it
`struct.unpack(">Q", f_in.read(8))` at line 133 raises `struct.error`,
which neither the line-124 nor the line-174 handler catches. -/
def wShortExtFile : List Nat :=
  [0, 0, 0, 1, 97, 98, 99, 100] ++ [0]

/-- Any fuel of at least `rest.length` gives the same result: `extractGo`'s
fuel index is an artifact, every loop iteration consumes at least 5 bytes. -/
theorem extractGo_fuel_irrelevant (f1 : Nat) : ∀ (f2 : Nat) (fault : Option Nat)
    (rest : List Nat), rest.length ≤ f1 → rest.length ≤ f2 →
    extractGo f1 fault rest = extractGo f2 fault rest := by
  induction f1 with
  | zero =>
    intro f2 fault rest h1 h2
    have hr : rest.length = 0 := Nat.le_zero.mp h1
    unfold extractGo
    cases f2 with
    | zero => rfl
    | succ g =>
      simp only [hr]
      norm_num
  | succ f ih =>
    intro f2 fault rest h1 h2
    cases f2 with
    | zero =>
      have hr : rest.length = 0 := Nat.le_zero.mp h2
      unfold extractGo
      simp only [hr]
      norm_num
    | succ g =>
      unfold extractGo
      by_cases hf : fault = some 0
      · simp [hf]
      · simp only [hf, if_false]
        by_cases h4 : rest.length < 4
        · simp [h4]
        · simp only [h4, if_false]
          by_cases hs : 20000000 < beVal (rest.take 4) ∨ beVal (rest.take 4) = 0
          · simp [hs]
          · simp only [hs, if_false]
            by_cases hd : ((rest.drop 4).take (beVal (rest.take 4))).length <
                beVal (rest.take 4)
            · simp only [if_pos hd]
            · simp only [if_neg hd]
              have hlen : (rest.drop (4 + beVal (rest.take 4))).length ≤ f ∧
                  (rest.drop (4 + beVal (rest.take 4))).length ≤ g := by
                simp only [List.length_drop]
                push_neg at hs
                omega
              rw [ih g (Option.map (fun k => k - 1) fault)
                (rest.drop (4 + beVal (rest.take 4))) hlen.1 hlen.2]

/-- One successful iteration of the extraction loop: no fault fires, the
length field is plausible and fully backed by data, so the unit is emitted
and the loop continues after it. -/
theorem extractGo_deep (f : Nat) (fault : Option Nat) (rest : List Nat)
    (hf : ¬ fault = some 0)
    (h4 : ¬ rest.length < 4)
    (hs : ¬ (20000000 < beVal (rest.take 4) ∨ beVal (rest.take 4) = 0))
    (hd : ¬ ((rest.drop 4).take (beVal (rest.take 4))).length <
      beVal (rest.take 4)) :
    extractGo (f + 1) fault rest =
      ((rest.drop 4).take (beVal (rest.take 4)) ::
        (extractGo f (Option.map (fun k => k - 1) fault)
          (rest.drop (4 + beVal (rest.take 4)))).fst,
       (extractGo f (Option.map (fun k => k - 1) fault)
         (rest.drop (4 + beVal (rest.take 4)))).snd) := by
  conv_lhs => rw [extractGo]
  rw [if_neg hf]
  simp only [if_neg h4, if_neg hs, if_neg hd]

/-- The extraction loop stops with no further output on a short length read,
an implausible length, or insufficient payload bytes. -/
theorem extractGo_stop (f : Nat) (fault : Option Nat) (rest : List Nat)
    (hf : ¬ fault = some 0)
    (h : rest.length < 4 ∨
      (20000000 < beVal (rest.take 4) ∨ beVal (rest.take 4) = 0) ∨
      ((rest.drop 4).take (beVal (rest.take 4))).length < beVal (rest.take 4)) :
    extractGo f fault rest = ([], false) := by
  conv_lhs => rw [extractGo.eq_def]
  rw [if_neg hf]
  cases f with
  | zero => rfl
  | succ f' =>
    rcases h with h | h | h
    · simp only [if_pos h]
    · rcases Nat.lt_or_ge rest.length 4 with h4 | h4
      · simp only [if_pos h4]
      · simp only [if_neg (Nat.not_lt.mpr h4), if_pos h]
    · rcases Nat.lt_or_ge rest.length 4 with h4 | h4
      · simp only [if_pos h4]
      · simp only [if_neg (Nat.not_lt.mpr h4)]
        by_cases hs : 20000000 < beVal (rest.take 4) ∨ beVal (rest.take 4) = 0
        · simp only [if_pos hs]
        · simp only [if_neg hs, if_pos h]

/-- With zero fuel the loop reports the fault if one fires immediately and
otherwise nothing (with the invariant fuel ≥ remaining length this is the
empty-payload case). -/
theorem extractGo_zero (fault : Option Nat) (rest : List Nat) :
    extractGo 0 fault rest =
      if fault = some 0 then ([], true) else ([], false) := by
  rw [extractGo.eq_def]

/-- Big-endian decoding inverts the 4-byte encoding below `2^32`. -/
theorem beVal_be32enc (n : Nat) (h : n < 4294967296) :
    beVal (be32enc n) = n := by
  simp [beVal, be32enc]
  omega

/-- Running the extraction loop over a serialized list of valid records
followed by a `tail` on which the loop yields nothing recovers exactly those
records, in order. -/
theorem extractGo_encode (units : List (List Nat)) :
    ∀ (fuel : Nat) (tail : List Nat),
    (encodeRecords units ++ tail).length ≤ fuel →
    (∀ u ∈ units, ValidUnit u) →
    (∀ g, tail.length ≤ g → extractGo g none tail = ([], false)) →
    extractGo fuel none (encodeRecords units ++ tail) = (units, false) := by
  induction units with
  | nil =>
    intro fuel tail hfuel _ htail
    simpa [encodeRecords] using htail fuel (by simpa [encodeRecords] using hfuel)
  | cons u us ih =>
    intro fuel tail hfuel hvalid htail
    obtain ⟨hu1, hu2⟩ : ValidUnit u := hvalid u (List.mem_cons_self u us)
    have henc : encodeRecords (u :: us) ++ tail =
        be32enc u.length ++ (u ++ (encodeRecords us ++ tail)) := by
      simp [encodeRecords]
    rw [henc] at hfuel ⊢
    have hlen : (be32enc u.length ++ (u ++ (encodeRecords us ++ tail))).length
        = 4 + u.length + (encodeRecords us ++ tail).length := by
      simp [be32enc]
      omega
    cases fuel with
    | zero => omega
    | succ f =>
      have htake : (be32enc u.length ++ (u ++ (encodeRecords us ++ tail))).take 4
          = be32enc u.length := List.take_left' rfl
      have hbe : beVal
          ((be32enc u.length ++ (u ++ (encodeRecords us ++ tail))).take 4)
          = u.length := by rw [htake]; exact beVal_be32enc _ (by omega)
      have hdrop : (be32enc u.length ++ (u ++ (encodeRecords us ++ tail))).drop 4
          = u ++ (encodeRecords us ++ tail) := List.drop_left' rfl
      have htakeu : ((be32enc u.length ++
            (u ++ (encodeRecords us ++ tail))).drop 4).take u.length
          = u := by rw [hdrop]; exact List.take_left' rfl
      have hdropall : (be32enc u.length ++
            (u ++ (encodeRecords us ++ tail))).drop (4 + u.length)
          = encodeRecords us ++ tail := by
        rw [show be32enc u.length ++ (u ++ (encodeRecords us ++ tail))
            = (be32enc u.length ++ u) ++ (encodeRecords us ++ tail) by simp,
          List.drop_left']
        simp [be32enc]
        omega
      rw [extractGo_deep f none _ (by simp)
        (by omega)
        (by rw [hbe]; push_neg; omega)
        (by rw [hbe, htakeu]; omega)]
      rw [hbe, htakeu, hdropall]
      simp only [Option.map_none']
      rw [ih f tail (by omega) (fun v hv => hvalid v (List.mem_cons_of_mem u hv))
        htail]

/-- An `IOError` injected before the k-th length read leaves exactly the
first `k` units a fault-free run would have recovered: the exception is
caught at line 124 after `k` units were already written. -/
theorem extractGo_fault_take : ∀ (fuel k : Nat) (rest : List Nat),
    (extractGo fuel (some k) rest).fst =
      (extractGo fuel none rest).fst.take k := by
  intro fuel
  induction fuel with
  | zero =>
    intro k rest
    cases k with
    | zero => simp [extractGo_zero]
    | succ j => simp [extractGo_zero]
  | succ f ih =>
    intro k rest
    cases k with
    | zero =>
      rw [extractGo.eq_def]
      simp
    | succ j =>
      have hfne : ¬ (some (j + 1) : Option Nat) = some 0 := by simp
      have hnone : ¬ (none : Option Nat) = some 0 := by simp
      by_cases h4 : rest.length < 4
      · rw [extractGo_stop _ _ _ hfne (Or.inl h4),
          extractGo_stop _ _ _ hnone (Or.inl h4)]
        rfl
      · by_cases hs : 20000000 < beVal (rest.take 4) ∨ beVal (rest.take 4) = 0
        · rw [extractGo_stop _ _ _ hfne (Or.inr (Or.inl hs)),
            extractGo_stop _ _ _ hnone (Or.inr (Or.inl hs))]
          rfl
        · by_cases hd : ((rest.drop 4).take (beVal (rest.take 4))).length <
              beVal (rest.take 4)
          · rw [extractGo_stop _ _ _ hfne (Or.inr (Or.inr hd)),
              extractGo_stop _ _ _ hnone (Or.inr (Or.inr hd))]
            rfl
          · rw [extractGo_deep f (some (j + 1)) rest hfne h4 hs hd,
              extractGo_deep f none rest hnone h4 hs hd]
            simp only [Option.map_some', Option.map_none', Nat.add_sub_cancel,
              List.take_succ_cons]
            rw [ih j]

/-- Every unit the extraction loop emits is nonempty and within the 20 MB
ceiling, whatever the fuel, fault, or input bytes. -/
theorem extractGo_bounds : ∀ (fuel : Nat) (fault : Option Nat)
    (rest u : List Nat), u ∈ (extractGo fuel fault rest).fst →
    1 ≤ u.length ∧ u.length ≤ 20000000 := by
  intro fuel
  induction fuel with
  | zero =>
    intro fault rest u hu
    rw [extractGo_zero] at hu
    by_cases hf : fault = some 0 <;> simp [hf] at hu
  | succ f ih =>
    intro fault rest u hu
    by_cases hf : fault = some 0
    · rw [extractGo.eq_def] at hu
      simp [hf] at hu
    · by_cases h4 : rest.length < 4
      · rw [extractGo_stop _ _ _ hf (Or.inl h4)] at hu
        simp at hu
      · by_cases hs : 20000000 < beVal (rest.take 4) ∨ beVal (rest.take 4) = 0
        · rw [extractGo_stop _ _ _ hf (Or.inr (Or.inl hs))] at hu
          simp at hu
        · by_cases hd : ((rest.drop 4).take (beVal (rest.take 4))).length <
              beVal (rest.take 4)
          · rw [extractGo_stop _ _ _ hf (Or.inr (Or.inr hd))] at hu
            simp at hu
          · rw [extractGo_deep f fault rest hf h4 hs hd] at hu
            rcases List.mem_cons.mp hu with hu | hu
            · subst hu
              push_neg at hs hd
              constructor
              · omega
              · calc ((rest.drop 4).take (beVal (rest.take 4))).length
                    ≤ beVal (rest.take 4) := by
                      simp [List.length_take]
                  _ ≤ 20000000 := hs.1
            · exact ih _ _ _ hu

/-- The extraction loop yields nothing on an empty payload region. -/
theorem extractGo_nil (g : Nat) : extractGo g none ([] : List Nat) = ([], false) := by
  cases g with
  | zero => rw [extractGo_zero]; rfl
  | succ g' => exact extractGo_stop _ _ _ (by simp) (Or.inl (by simp))

/-- Running `extractLoop` over exactly the serialization of valid records recovers
them all. -/
theorem extractLoop_encode (units : List (List Nat))
    (hvalid : ∀ u ∈ units, ValidUnit u) :
    extractLoop none (encodeRecords units) = (units, false) := by
  have h := extractGo_encode units (encodeRecords units ++ []).length []
    (Nat.le_refl _) hvalid (fun g _ => extractGo_nil g)
  simpa [extractLoop] using h

/-- Running `extractLoop` over valid records followed by a corrupt length field
(zero or above the ceiling) recovers exactly the valid records. -/
theorem extractLoop_encode_badlen (units : List (List Nat)) (b : Nat)
    (r : List Nat) (hvalid : ∀ u ∈ units, ValidUnit u)
    (hb32 : b < 4294967296) (hbad : b = 0 ∨ 20000000 < b) :
    extractLoop none (encodeRecords units ++ (be32enc b ++ r)) =
      (units, false) := by
  have hbe : beVal ((be32enc b ++ r).take 4) = b := by
    rw [show (be32enc b ++ r).take 4 = be32enc b from List.take_left' rfl]
    exact beVal_be32enc b hb32
  have htail : ∀ g, (be32enc b ++ r).length ≤ g →
      extractGo g none (be32enc b ++ r) = ([], false) := by
    intro g _
    refine extractGo_stop g none _ (by simp) (Or.inr (Or.inl ?_))
    rw [hbe]
    tauto
  have h := extractGo_encode units
    (encodeRecords units ++ (be32enc b ++ r)).length (be32enc b ++ r)
    (Nat.le_refl _) hvalid htail
  simpa [extractLoop] using h

/-- Running `extractLoop` over valid records followed by a record whose plausible
length field declares more bytes than remain recovers exactly the valid
records: the final incomplete unit is dropped. -/
theorem extractLoop_encode_trunc (units : List (List Nat)) (L : Nat)
    (d : List Nat) (hvalid : ∀ u ∈ units, ValidUnit u)
    (hL1 : 1 ≤ L) (hL2 : L ≤ 20000000) (hshort : d.length < L) :
    extractLoop none (encodeRecords units ++ (be32enc L ++ d)) =
      (units, false) := by
  have hbe : beVal ((be32enc L ++ d).take 4) = L := by
    rw [show (be32enc L ++ d).take 4 = be32enc L from List.take_left' rfl]
    exact beVal_be32enc L (by omega)
  have hdrop : (be32enc L ++ d).drop 4 = d := List.drop_left' rfl
  have htail : ∀ g, (be32enc L ++ d).length ≤ g →
      extractGo g none (be32enc L ++ d) = ([], false) := by
    intro g _
    refine extractGo_stop g none _ (by simp) (Or.inr (Or.inr ?_))
    rw [hbe, hdrop]
    simp [List.length_take]
    omega
  have h := extractGo_encode units
    (encodeRecords units ++ (be32enc L ++ d)).length (be32enc L ++ d)
    (Nat.le_refl _) hvalid htail
  simpa [extractLoop] using h

/-- The stream written for recovered `units` is the flattening of the
start-code-prefixed sequence SPS, PPS, units. -/
theorem streamOf_eq_flatten (units : List (List Nat)) :
    streamOf units =
      ((SPS :: PPS :: units).map (fun u => START_CODE ++ u)).flatten := by
  simp [streamOf, fixedHeader]

/-- With fewer than 8 bytes left the scanner stops with not-found. -/
theorem scanStep_short (file : List Nat) (p : Nat)
    (h : file.length < p + 8) : scanStep file p = ScanStep.notFound := by
  unfold scanStep
  rw [if_pos]
  simp only [readAt, List.length_take, List.length_drop]
  omega

/-- The scanner only advances when a full 8-byte header was available. -/
theorem scanStep_advance_le (file : List Nat) (p q : Nat)
    (h : scanStep file p = ScanStep.advance q) : p + 8 ≤ file.length := by
  by_contra hc
  push_neg at hc
  rw [scanStep_short file p hc] at h
  simp at h

/-- Unfolding `scanBoxes` once through a known step result. -/
theorem scanBoxes_advance (file : List Nat) (fuel p q : Nat)
    (h : scanStep file p = ScanStep.advance q) :
    scanBoxes file (fuel + 1) p = scanBoxes file fuel q := by
  rw [scanBoxes.eq_def, h]

/-- With zero fuel, a step that advances runs the scanner out of fuel. -/
theorem scanBoxes_advance_zero (file : List Nat) (p q : Nat)
    (h : scanStep file p = ScanStep.advance q) :
    scanBoxes file 0 p = ScanOutcome.outOfFuel := by
  rw [scanBoxes.eq_def, h]

/-- Unfolding `scanBoxes` through a found step result. -/
theorem scanBoxes_found (file : List Nat) (fuel p s : Nat)
    (h : scanStep file p = ScanStep.found s) :
    scanBoxes file fuel p = ScanOutcome.found s := by
  rw [scanBoxes.eq_def, h]

/-- Unfolding `scanBoxes` through a not-found step result. -/
theorem scanBoxes_notFound (file : List Nat) (fuel p : Nat)
    (h : scanStep file p = ScanStep.notFound) :
    scanBoxes file fuel p = ScanOutcome.notFound := by
  rw [scanBoxes.eq_def, h]

/-- If every skip step strictly advances the cursor, the scanning loop
terminates within `file.length + 1` steps: the fuel bound is never hit. -/
theorem scanBoxes_terminates (file : List Nat) : ∀ (fuel p : Nat),
    (∀ a b, scanStep file a = ScanStep.advance b → a < b) →
    file.length + 1 ≤ fuel + p →
    scanBoxes file fuel p ≠ ScanOutcome.outOfFuel := by
  intro fuel
  induction fuel with
  | zero =>
    intro p hadv hb
    rw [scanBoxes_notFound file 0 p (scanStep_short file p (by omega))]
    simp
  | succ f ih =>
    intro p hadv hb
    cases h : scanStep file p with
    | advance q =>
      rw [scanBoxes_advance file f p q h]
      have hlt : p < q := hadv p q h
      exact ih q hadv (by omega)
    | found s => rw [scanBoxes_found file _ p s h]; simp
    | notFound => rw [scanBoxes_notFound file _ p h]; simp
    | structErr => rw [scanBoxes.eq_def, h]; simp

/-- C1: for a well-formed input whose `mdat` payload is exactly N valid
4-byte big-endian length-prefixed records, `recover_file` produces an
intermediate elementary stream of exactly N+2 start-code-delimited units:
the fixed SPS, the fixed PPS, then the N recovered units in storage order;
it then invokes the mux step and returns its result. -/
theorem recover_wellformed_stream (file : List Nat) (fuel s : Nat)
    (units : List (List Nat)) (muxOk : Bool)
    (hscan : scanBoxes file fuel 0 = ScanOutcome.found s)
    (hpayload : file.drop s = encodeRecords units)
    (hvalid : ∀ u ∈ units, ValidUnit u) :
    recoverRun file fuel none muxOk = some {
      retVal := some muxOk, muxAttempted := true,
      stream := ((SPS :: PPS :: units).map (fun u => START_CODE ++ u)).flatten,
      tempRemains := false } := by
  simp only [recoverRun, hscan]
  rw [hpayload, extractLoop_encode units hvalid, ← streamOf_eq_flatten]

theorem recover_wellformed_stream_witness :
    scanBoxes wTwoRecFile 1 0 = ScanOutcome.found 8 ∧
    wTwoRecFile.drop 8 = encodeRecords [[65], [66, 67]] ∧
    (∀ u ∈ [[65], [66, 67]], ValidUnit u) ∧
    recoverRun wTwoRecFile 1 none true = some {
      retVal := some true, muxAttempted := true,
      stream := (([SPS, PPS, [65], [66, 67]]).map
        (fun u => START_CODE ++ u)).flatten,
      tempRemains := false } :=
  ⟨by decide, by decide, by decide,
    recover_wellformed_stream wTwoRecFile 1 8 [[65], [66, 67]] true
      (by decide) (by decide) (by decide)⟩

/-- C2: a zero or over-ceiling length field after K valid records stops
extraction with exactly the K recovered units (plus the two fixed units in
the stream header), and the run still proceeds to the mux step, returning
the mux result rather than failing. -/
theorem recover_corrupt_length (file : List Nat) (fuel s b : Nat)
    (units : List (List Nat)) (r : List Nat) (muxOk : Bool)
    (hscan : scanBoxes file fuel 0 = ScanOutcome.found s)
    (hpayload : file.drop s = encodeRecords units ++ (be32enc b ++ r))
    (hvalid : ∀ u ∈ units, ValidUnit u)
    (hb32 : b < 4294967296) (hbad : b = 0 ∨ 20000000 < b) :
    recoverRun file fuel none muxOk = some {
      retVal := some muxOk, muxAttempted := true,
      stream := streamOf units, tempRemains := false } := by
  simp only [recoverRun, hscan]
  rw [hpayload, extractLoop_encode_badlen units b r hvalid hb32 hbad]

theorem recover_corrupt_length_witness :
    scanBoxes wZeroLenFile 1 0 = ScanOutcome.found 8 ∧
    wZeroLenFile.drop 8 = encodeRecords [[65]] ++ (be32enc 0 ++ []) ∧
    (∀ u ∈ [[65]], ValidUnit u) ∧
    recoverRun wZeroLenFile 1 none true = some {
      retVal := some true, muxAttempted := true,
      stream := streamOf [[65]], tempRemains := false } :=
  ⟨by decide, by decide, by decide,
    recover_corrupt_length wZeroLenFile 1 8 0 [[65]] [] true
      (by decide) (by decide) (by decide) (by decide) (by decide)⟩

/-- C3: when the last length field declares more bytes than remain, the
incomplete final unit is not written at all, every previously completed
unit is preserved, and extraction stops. -/
theorem recover_truncated_unit (file : List Nat) (fuel s L : Nat)
    (units : List (List Nat)) (d : List Nat) (muxOk : Bool)
    (hscan : scanBoxes file fuel 0 = ScanOutcome.found s)
    (hpayload : file.drop s = encodeRecords units ++ (be32enc L ++ d))
    (hvalid : ∀ u ∈ units, ValidUnit u)
    (hL1 : 1 ≤ L) (hL2 : L ≤ 20000000) (hshort : d.length < L) :
    recoverRun file fuel none muxOk = some {
      retVal := some muxOk, muxAttempted := true,
      stream := streamOf units, tempRemains := false } := by
  simp only [recoverRun, hscan]
  rw [hpayload, extractLoop_encode_trunc units L d hvalid hL1 hL2 hshort]

theorem recover_truncated_unit_witness :
    scanBoxes wTruncFile 1 0 = ScanOutcome.found 8 ∧
    wTruncFile.drop 8 = encodeRecords [[65]] ++ (be32enc 5 ++ [66, 67]) ∧
    (∀ u ∈ [[65]], ValidUnit u) ∧
    recoverRun wTruncFile 1 none true = some {
      retVal := some true, muxAttempted := true,
      stream := streamOf [[65]], tempRemains := false } :=
  ⟨by decide, by decide, by decide,
    recover_truncated_unit wTruncFile 1 8 5 [[65]] [66, 67] true
      (by decide) (by decide) (by decide) (by decide) (by decide) (by decide)⟩

/-- C4 counterexample: the claim fails on an `mdat`-free input whose sole
box has size field 1 and a truncated extended-size field.  The input holds
no `mdat` box (it is 9 bytes; its one box header, `abcd`, is not `mdat`),
yet `recover_file` does not return `False`: the scan ends in an uncaught
`struct.error` that propagates out of `recover_file` (`retVal = none`).
No mux is attempted and the `finally` block still removes the temp file. -/
theorem recover_no_mdat_cex :
    asciiIgnore ((readAt wShortExtFile 0 8).drop 4) ≠ mdatBytes ∧
    wShortExtFile.length = 9 ∧
    scanBoxes wShortExtFile 1 0 = ScanOutcome.structErr ∧
    recoverRun wShortExtFile 1 none true = some {
      retVal := none, muxAttempted := false,
      stream := fixedHeader, tempRemains := false } := by decide

/-- C4 amended: when the box scan ends not-found (the source is exhausted
with fewer than 8 header bytes left, or a size-0 non-`mdat` box is reached)
without finding `mdat`, `recover_file` returns `False`, no mux is
attempted, and the temporary intermediate file does not remain on disk.
Other `mdat`-free inputs escape this: a box with size field 1 and fewer
than 8 bytes of extended size makes an uncaught `struct.error` propagate
(`recover_file` raises instead of returning `False`, though cleanup still
runs and no mux is attempted — see `recover_no_mdat_cex`), and a size-1
box with extended size 0 makes the scan loop run forever. -/
theorem recover_no_mdat_fails (file : List Nat) (fuel : Nat)
    (fault : Option Nat) (muxOk : Bool)
    (hscan : scanBoxes file fuel 0 = ScanOutcome.notFound) :
    recoverRun file fuel fault muxOk = some {
      retVal := some false, muxAttempted := false,
      stream := fixedHeader, tempRemains := false } := by
  simp only [recoverRun, hscan]

theorem recover_no_mdat_fails_witness :
    scanBoxes ([] : List Nat) 0 0 = ScanOutcome.notFound ∧
    recoverRun ([] : List Nat) 0 none true = some {
      retVal := some false, muxAttempted := false,
      stream := fixedHeader, tempRemains := false } :=
  ⟨by decide, recover_no_mdat_fails [] 0 none true (by decide)⟩

/-- C5 counterexample: an `IOError` raised during the extraction loop (here
at the very first length read; the `snd = true` component records that the
exception fired and was caught at line 124) does NOT make `recover_file`
return `False`: the run proceeds to the mux step and returns `True` when
the mux succeeds. -/
theorem recover_io_fault_cex :
    (extractLoop (some 0) (wOneRecFile.drop 8)).snd = true ∧
    recoverRun wOneRecFile 1 (some 0) true = some {
      retVal := some true, muxAttempted := true,
      stream := fixedHeader, tempRemains := false } := by decide

/-- C5 amended: an I/O read failure inside the per-unit extraction loop is
caught locally and treated like corruption: the run keeps the units already
written (the first `k` of a fault-free run), still invokes the mux step,
returns the mux result rather than `False`, and the temp sink is still
cleaned up.  (Only I/O failures outside that loop make `recover_file`
return `False`.) -/
theorem recover_io_fault_continues (file : List Nat) (fuel s k : Nat)
    (muxOk : Bool) (hscan : scanBoxes file fuel 0 = ScanOutcome.found s) :
    recoverRun file fuel (some k) muxOk = some {
      retVal := some muxOk, muxAttempted := true,
      stream := streamOf ((extractLoop none (file.drop s)).fst.take k),
      tempRemains := false } := by
  simp only [recoverRun, hscan]
  rw [show (extractLoop (some k) (file.drop s)).fst
      = (extractLoop none (file.drop s)).fst.take k from
    extractGo_fault_take _ k _]

theorem recover_io_fault_continues_witness :
    scanBoxes wOneRecFile 1 0 = ScanOutcome.found 8 ∧
    recoverRun wOneRecFile 1 (some 0) false = some {
      retVal := some false, muxAttempted := true,
      stream := streamOf ((extractLoop none (wOneRecFile.drop 8)).fst.take 0),
      tempRemains := false } :=
  ⟨by decide, recover_io_fault_continues wOneRecFile 1 8 0 false (by decide)⟩

/-- C6: on a non-`mdat` box with a full header: size field 1 reads the
8-byte extended size and continues at `(p + 16) + (extended - 16)` (i.e.
`p + extended`); size field 0 stops scanning with not-found; any other size
continues at `(p + 8) + (size - 8)` (i.e. `p + size`). -/
theorem scan_skip_box (file : List Nat) (p : Nat)
    (hhdr : ¬ (readAt file p 8).length < 8)
    (hnot : ¬ asciiIgnore ((readAt file p 8).drop 4) = mdatBytes) :
    (beVal ((readAt file p 8).take 4) = 1 →
      ¬ (readAt file (p + 8) 8).length < 8 →
      scanStep file p = ScanStep.advance (p + beVal (readAt file (p + 8) 8)) ∧
      ((p + beVal (readAt file (p + 8) 8) : Nat) : Int) =
        ((p : Int) + 16) + ((beVal (readAt file (p + 8) 8) : Int) - 16)) ∧
    (beVal ((readAt file p 8).take 4) = 0 →
      scanStep file p = ScanStep.notFound) ∧
    (¬ beVal ((readAt file p 8).take 4) = 1 →
      ¬ beVal ((readAt file p 8).take 4) = 0 →
      scanStep file p = ScanStep.advance (p + beVal ((readAt file p 8).take 4)) ∧
      ((p + beVal ((readAt file p 8).take 4) : Nat) : Int) =
        ((p : Int) + 8) + ((beVal ((readAt file p 8).take 4) : Int) - 8)) := by
  refine ⟨?_, ?_, ?_⟩
  · intro h1 hext
    constructor
    · unfold scanStep
      rw [if_neg hhdr, if_neg hnot, if_pos h1, if_neg hext]
    · push_cast
      ring
  · intro h0
    have h1 : ¬ beVal ((readAt file p 8).take 4) = 1 := by omega
    unfold scanStep
    rw [if_neg hhdr, if_neg hnot, if_neg h1, if_pos h0]
  · intro h1 h0
    constructor
    · unfold scanStep
      rw [if_neg hhdr, if_neg hnot, if_neg h1, if_neg h0]
    · push_cast
      ring

theorem scan_skip_box_witness :
    scanStep wFreeFile 0 = ScanStep.advance 16 ∧
    scanStep wExtFile 0 = ScanStep.advance 24 :=
  ⟨((scan_skip_box wFreeFile 0 (by decide) (by decide)).2.2
      (by decide) (by decide)).1,
   ((scan_skip_box wExtFile 0 (by decide) (by decide)).1
      (by decide) (by decide)).1⟩

/-- C7: every coded unit the extraction loop writes to the output (the two
fixed parameter units aside) has a payload of at least 1 and at most
20,000,000 bytes; no zero-length or over-ceiling unit is ever emitted. -/
theorem extract_unit_bounds (fault : Option Nat) (rest u : List Nat)
    (hu : u ∈ (extractLoop fault rest).fst) :
    1 ≤ u.length ∧ u.length ≤ 20000000 :=
  extractGo_bounds rest.length fault rest u hu

theorem extract_unit_bounds_witness :
    [65] ∈ (extractLoop none [0, 0, 0, 1, 65]).fst ∧
    (1 ≤ ([65] : List Nat).length ∧ ([65] : List Nat).length ≤ 20000000) :=
  ⟨by decide, extract_unit_bounds none [0, 0, 0, 1, 65] [65] (by decide)⟩

/-- C8: the intermediate elementary stream is a deterministic function of
the input bytes alone: two fault-free runs on the same input produce
byte-identical streams, whatever the external mux collaborator does. -/
theorem stream_deterministic (file : List Nat) (fuel : Nat) (m1 m2 : Bool) :
    (recoverRun file fuel none m1).map RunOutcome.stream =
      (recoverRun file fuel none m2).map RunOutcome.stream := by
  unfold recoverRun
  cases scanBoxes file fuel 0 <;> rfl

/-- C9: invoked with an input path and no output path, `main` derives the
output path by stripping the input path's extension and appending the fixed
suffix `"_fixed.mp4"`; e.g. `video.mp4` becomes `video_fixed.mp4`. -/
theorem main_default_output :
    (∀ prog inFile : List Char,
      mainOutPath [prog, inFile] =
        some ((splitext inFile).fst ++ fixedSuffix)) ∧
    mainOutPath [['f'], ['v', 'i', 'd', 'e', 'o', '.', 'm', 'p', '4']] =
      some ['v', 'i', 'd', 'e', 'o', '_', 'f', 'i', 'x', 'e', 'd',
        '.', 'm', 'p', '4'] := by
  constructor
  · intro prog inFile
    simp [mainOutPath]
  · decide

/-- On `wStallFile` the scanning loop never terminates: whatever the fuel,
it is still running, because the skip step at offset 0 returns to offset 0. -/
theorem scanBoxes_stall (n : Nat) :
    scanBoxes wStallFile n 0 = ScanOutcome.outOfFuel := by
  have hstep : scanStep wStallFile 0 = ScanStep.advance 0 := by decide
  induction n with
  | zero => exact scanBoxes_advance_zero wStallFile 0 0 hstep
  | succ m ih => rw [scanBoxes_advance wStallFile m 0 0 hstep]; exact ih

/-- C10 counterexample: on a non-`mdat` box with size field 1 and 64-bit
extended size 0 the cursor does not advance (the step at offset 0 returns
to offset 0), and the scanning loop is still running after 1000 iterations
(by `scanBoxes_stall`, after any number of iterations): the loop does not
terminate on this finite input. -/
theorem scan_stall_cex :
    scanStep wStallFile 0 = ScanStep.advance 0 ∧
    scanBoxes wStallFile 1000 0 = ScanOutcome.outOfFuel :=
  ⟨by decide, scanBoxes_stall 1000⟩

/-- C10 amended: the box-scanning loop terminates whenever every skip step
strictly advances the read cursor (which holds unless some non-`mdat` box
has size field 1 with extended size 0): within `file.length + 1` steps the
loop reaches a terminal outcome. -/
theorem scan_strict_advance_terminates (file : List Nat) (fuel p : Nat)
    (hadv : ∀ a b, scanStep file a = ScanStep.advance b → a < b)
    (hb : file.length + 1 ≤ fuel + p) :
    scanBoxes file fuel p ≠ ScanOutcome.outOfFuel :=
  scanBoxes_terminates file fuel p hadv hb

theorem scan_strict_advance_terminates_witness :
    (∀ a b, scanStep ([] : List Nat) a = ScanStep.advance b → a < b) ∧
    ([] : List Nat).length + 1 ≤ 1 + 0 ∧
    scanBoxes ([] : List Nat) 1 0 ≠ ScanOutcome.outOfFuel := by
  have hadv : ∀ a b, scanStep ([] : List Nat) a = ScanStep.advance b → a < b := by
    intro a b h
    rw [scanStep_short ([] : List Nat) a
      (by simp only [List.length_nil]; omega)] at h
    simp at h
  exact ⟨hadv, by simp,
    scan_strict_advance_terminates [] 1 0 hadv (by simp)⟩
